import Mathlib

/-!
Shallow embedding of the `factory` repository (a Jira-to-PR automation
daemon written in Go) and verification of its specification claims.

External collaborators (tracker, git, the code-generation tool, the code
host, the operating system) are modelled as oracles: a record of the
outcomes their calls would produce during one run.  The control flow,
state updates and strings are translated statement-by-statement from the
Go source (`src/internal/*.go`, `src/main.go`).
-/

namespace Factory

/-! ## Configuration (src/internal/config.go) -/

structure JiraConfig where
  baseURL : String
  email : String
  apiToken : String
  useACLI : Bool
deriving DecidableEq

structure GitHubConfig where
  token : String
  owner : String
  repo : String
deriving DecidableEq

structure RepoConfig where
  cloneURL : String
  localPath : String
  defaultBranch : String
deriving DecidableEq

structure PollConfig where
  intervalMinutes : Int
  autoTransition : Bool
deriving DecidableEq

structure Config where
  jira : JiraConfig
  github : GitHubConfig
  repo : RepoConfig
  poll : PollConfig
deriving DecidableEq

/-! ## Issue data model (src/internal/jira.go) -/

structure Issue where
  key : String
  title : String
  description : String
  itype : String
  priority : String
  status : String
  labels : List String
  components : List String
  acceptanceCriteria : String
deriving DecidableEq

/-- Character-wise model of Go's `strings.ToLower` (ASCII case mapping). -/
def toLowerStr (s : String) : String :=
  String.mk (s.data.map Char.toLower)

/-- `Issue.IsValidType` from src/internal/jira.go lines 28-31:
`t := strings.ToLower(i.Type); return t == "bug" || t == "task" || t == "story" || t == "sub-task"`. -/
def Issue.IsValidType (i : Issue) : Bool :=
  let t := toLowerStr i.itype
  t = "bug" || t = "task" || t = "story" || t = "sub-task"

/-- `Issue.IsClosed` from src/internal/jira.go lines 33-36:
`s := strings.ToLower(i.Status); return s == "done" || s == "closed" || s == "resolved" || s == "cancelled"`. -/
def Issue.IsClosed (i : Issue) : Bool :=
  let s := toLowerStr i.status
  s = "done" || s = "closed" || s = "resolved" || s = "cancelled"

/-- ASCII whitespace trimmed by Go's `strings.TrimSpace`. -/
def isGoTrimSpace (c : Char) : Bool :=
  c = ' ' || c = '\t' || c = '\n' || c = '\x0B' || c = '\x0C' || c = '\r'

/-- `strings.TrimSpace` (ASCII fragment). -/
def goTrimSpace (cs : List Char) : List Char :=
  ((cs.dropWhile isGoTrimSpace).reverse.dropWhile isGoTrimSpace).reverse

/-! ## Branch name computation (src/internal/git.go, Git.CreateBranch) -/

/-- A character matched by the Go regexp character class `[a-zA-Z0-9]`. -/
def isAlnum (c : Char) : Bool :=
  ('a' ≤ c && c ≤ 'z') || ('A' ≤ c && c ≤ 'Z') || ('0' ≤ c && c ≤ '9')

/-- `regexp.MustCompile([^a-zA-Z0-9]+).ReplaceAllString(s, "-")`: every
maximal run of characters outside `[a-zA-Z0-9]` is replaced by a single
hyphen. -/
def collapseNonAlnum : List Char → List Char
  | [] => []
  | c :: cs =>
    if isAlnum c then c :: collapseNonAlnum cs
    else '-' :: collapseNonAlnum (cs.dropWhile (fun d => !isAlnum d))
termination_by l => l.length
decreasing_by
  all_goals simp_wf
  have h : (cs.dropWhile (fun d => !isAlnum d)).length ≤ cs.length :=
    (List.dropWhile_suffix _).length_le
  omega

/-- `strings.Trim(s, "-")`: strip leading and trailing hyphens. -/
def trimHyphens (cs : List Char) : List Char :=
  ((cs.dropWhile (fun c => c = '-')).reverse.dropWhile (fun c => c = '-')).reverse

/-- The slug computed inside `Git.CreateBranch` (src/internal/git.go lines
76-81): lower-case the title, collapse each run of non-alphanumeric
characters to one hyphen, trim hyphens, truncate to 40.  Go's Unicode
`strings.ToLower` is modelled character-wise by `Char.toLower`; after the
collapse step only ASCII `[a-z0-9-]` characters remain, so the Go byte
truncation `slug[:40]` coincides with taking 40 characters. -/
def branchSlug (title : String) : String :=
  String.mk ((trimHyphens (collapseNonAlnum (title.data.map Char.toLower))).take 40)

/-- The branch name `fmt.Sprintf("feature/%s-%s", issueKey, slug)` from
src/internal/git.go line 82. -/
def branchNameOf (issueKey title : String) : String :=
  "feature/" ++ issueKey ++ "-" ++ branchSlug title

/-! ## Pipeline collaborator oracle and trace -/

instance {α β : Type} [DecidableEq α] [DecidableEq β] : DecidableEq (Except α β) := fun x y =>
  match x, y with
  | .ok a, .ok b =>
    if h : a = b then isTrue (by rw [h]) else isFalse (fun hc => h (Except.ok.inj hc))
  | .error a, .error b =>
    if h : a = b then isTrue (by rw [h]) else isFalse (fun hc => h (Except.error.inj hc))
  | .ok _, .error _ => isFalse (fun hc => Except.noConfusion hc)
  | .error _, .ok _ => isFalse (fun hc => Except.noConfusion hc)

/-- Outcomes that the external collaborator calls of one `ProcessIssue`
run would produce, in the order the Go code can reach them.
`Option String` fields are `some err` when the call fails; `Except`
fields carry a payload on success. -/
structure PipelineEnv where
  /-- `GetIssue(cfg, issueKey)` (src/internal/jira.go). -/
  getIssue : Except String Issue
  /-- `git.Init()` (src/internal/git.go lines 40-60): mkdir + clone-if-absent. -/
  gitInit : Option String
  /-- `git.Pull()` (src/internal/git.go lines 62-68): checkout default branch, pull.
  This is the only fallible step of `Git.CreateBranch`; the subsequent
  checkout of the feature branch discards its error. -/
  pull : Option String
  /-- `runClaude(git.Path(), issue)` (src/internal/engine.go lines 111-159). -/
  claude : Option String
  /-- `git.HasChanges()` (src/internal/git.go lines 95-98). -/
  hasChanges : Bool
  /-- `git.CommitAndPush(branch, msg)` (src/internal/git.go lines 100-111). -/
  commitPush : Option String
  /-- `CreatePR(cfg, title, body, branch, base)`: the code-host collaborator. -/
  createPR : Except String String
deriving DecidableEq

/-- Which collaborator operations a `ProcessIssue` run performed. -/
structure Trace where
  gitInitCalled : Bool
  createBranchCalled : Bool
  claudeCalled : Bool
  commitPushCalled : Bool
  createPRCalled : Bool
  addCommentCalled : Bool
  transitionCalled : Bool
deriving DecidableEq

def Trace.none0 : Trace :=
  ⟨false, false, false, false, false, false, false⟩

/-! ## Pipeline (src/internal/engine.go) -/

structure Result where
  issueKey : String
  status : String
  prUrl : String
  error : String
deriving DecidableEq

/-- `fail` from src/internal/engine.go lines 93-98:
`result.Status = "failed"; result.Error = fmt.Sprintf("%s: %v", stage, err)`. -/
def fail (result : Result) (stage : String) (err : String) : Result :=
  { result with status := "failed", error := stage ++ ": " ++ err }

/-- `ProcessIssue` from src/internal/engine.go lines 18-91, paired with the
trace of collaborator calls it performed.  The `AddComment` / `Transition`
results are discarded by the Go code (best-effort), so only their
occurrence is traced. -/
def ProcessIssue (cfg : Config) (env : PipelineEnv) (issueKey : String) :
    Result × Trace :=
  let result : Result := ⟨issueKey, "started", "", ""⟩
  match env.getIssue with
  | .error e => (fail result "fetch" e, Trace.none0)
  | .ok issue =>
    if !issue.IsValidType then
      (fail result "validate" ("invalid type: " ++ issue.itype), Trace.none0)
    else if issue.IsClosed then
      (fail result "validate" ("issue is closed: " ++ issue.status), Trace.none0)
    else
      match env.gitInit with
      | some e => (fail result "git" e, { Trace.none0 with gitInitCalled := true })
      | none =>
        let tr1 : Trace := { Trace.none0 with gitInitCalled := true, createBranchCalled := true }
        match env.pull with
        | some e => (fail result "branch" e, tr1)
        | none =>
          let tr2 := { tr1 with claudeCalled := true }
          match env.claude with
          | some e => (fail result "claude" e, tr2)
          | none =>
            if env.hasChanges then
              let tr3 := { tr2 with commitPushCalled := true }
              match env.commitPush with
              | some e => (fail result "push" e, tr3)
              | none =>
                let tr4 := { tr3 with createPRCalled := true }
                match env.createPR with
                | .error e => (fail result "pr" e, tr4)
                | .ok prURL =>
                  ({ result with status := "completed", prUrl := prURL },
                   { tr4 with addCommentCalled := true,
                              transitionCalled := cfg.poll.autoTransition })
            else
              ({ result with status := "completed" }, tr2)

/-- `Git.CreateBranch` (src/internal/git.go lines 70-93): pull first (its
error aborts), then compute the branch name; the checkout of the feature
branch ignores errors and the computed name is returned unconditionally. -/
def CreateBranch (env : PipelineEnv) (issueKey title : String) :
    Except String String :=
  match env.pull with
  | some e => .error e
  | none => .ok (branchNameOf issueKey title)

/-! ## Ledger (the `processed` map of src/internal/daemon.go)

The Go ledger is a `map[string]ProcessedIssue`, loaded from and saved whole
to `processed.json`.  It is modelled as an association list with map
semantics: `insertLedger` overwrites, `eraseLedger` removes, `lookupLedger`
is the map read.  `saveProcessed` writes the full in-memory map, so a
function that ends in a save returns the new on-disk contents. -/

structure ProcessedIssue where
  processedAt : String
  status : String
  prUrl : String
  error : String
deriving DecidableEq

abbrev Ledger := List (String × ProcessedIssue)

def lookupLedger (m : Ledger) (k : String) : Option ProcessedIssue :=
  (m.find? (fun p => p.1 = k)).map (fun p => p.2)

def eraseLedger (m : Ledger) (k : String) : Ledger :=
  m.filter (fun p => p.1 ≠ k)

def insertLedger (m : Ledger) (k : String) (v : ProcessedIssue) : Ledger :=
  (k, v) :: eraseLedger m k

/-! ## Poller (`poll`, src/internal/daemon.go lines 107-148) -/

/-- One observable action of a `poll` tick, in program order:
`ProcessIssue` invocation, `processed[key] = record` map update, and
`saveProcessed()` with the full map it writes to disk. -/
inductive PollEvent
  | processEv (key : String)
  | recordEv (key : String) (entry : ProcessedIssue)
  | saveEv (disk : Ledger)
deriving DecidableEq

/-- Oracle for one tick: the `GetAssignedIssues` outcome, the collaborator
outcomes each `ProcessIssue(cfg, key)` call would see, and the
`time.Now().Format(time.RFC3339)` timestamp. -/
structure PollEnv where
  issues : Except String (List Issue)
  pipelineEnvOf : String → PipelineEnv
  now : String

/-- The `ProcessedIssue` record stored for one issue by the loop body of
`poll` (src/internal/daemon.go lines 140-145): the timestamp and the
summary of the `ProcessIssue` result. -/
def pollEntry (cfg : Config) (env : PollEnv) (i : Issue) : ProcessedIssue :=
  ⟨env.now, (ProcessIssue cfg (env.pipelineEnvOf i.key) i.key).1.status,
    (ProcessIssue cfg (env.pipelineEnvOf i.key) i.key).1.prUrl,
    (ProcessIssue cfg (env.pipelineEnvOf i.key) i.key).1.error⟩

/-- The `for _, issue := range newIssues` loop body of `poll` (lines
138-147): process, store the summary record, save the whole map. -/
def pollItems (cfg : Config) (env : PollEnv) :
    List Issue → Ledger → Ledger × List PollEvent
  | [], m => (m, [])
  | issue :: rest, m =>
    let entry := pollEntry cfg env issue
    let m' := insertLedger m issue.key entry
    ((pollItems cfg env rest m').1,
      .processEv issue.key :: .recordEv issue.key entry :: .saveEv m'
        :: (pollItems cfg env rest m').2)

/-- The `newIssues` filter of `poll` (lines 119-124): issues whose key is
absent from the `processed` map. -/
def pollNewIssues (env : PollEnv) (m : Ledger) : List Issue :=
  match env.issues with
  | .error _ => []
  | .ok issues => issues.filter (fun i => (lookupLedger m i.key).isNone)

/-- `poll` (src/internal/daemon.go lines 107-148): on a fetch error the
tick aborts; otherwise issues whose key is already in `processed` are
filtered out and the remainder is processed sequentially.  Returns the
final ledger and the events of the tick. -/
def poll (cfg : Config) (env : PollEnv) (m : Ledger) : Ledger × List PollEvent :=
  match env.issues with
  | .error _ => (m, [])
  | .ok _ => pollItems cfg env (pollNewIssues env m) m

/-! ## Manual trigger (src/main.go lines 42-56, `case "trigger"`) -/

/-- The `trigger <KEY>` command: it loads the config, runs `ProcessIssue`
once and exits with code 1 unless the result is completed.  It performs no
ledger read or write, so the on-disk ledger is returned unchanged. -/
def triggerCmd (cfg : Config) (penv : PipelineEnv) (disk : Ledger) (key : String) :
    Result × Ledger × Nat :=
  let r := (ProcessIssue cfg penv key).1
  (r, disk, if r.status ≠ "completed" then 1 else 0)

/-! ## Clear (src/internal/daemon.go lines 229-239, `ClearProcessed`) -/

/-- `ClearProcessed`: load the ledger from disk; an empty key replaces the
map with a fresh empty one, otherwise `delete(processed, issueKey)`; then
`saveProcessed()` persists the result.  The returned ledger is the new
on-disk contents. -/
def ClearProcessed (disk : Ledger) (issueKey : String) : Ledger :=
  if issueKey = "" then [] else eraseLedger disk issueKey

/-! ## Daemon supervisor (src/internal/daemon.go lines 36-72, 182-190) -/

/-- The digits of `strconv.Atoi`: all characters must be decimal digits
and at least one must be present. -/
def atoiDigits : List Char → Option Nat
  | [] => none
  | cs =>
    cs.foldl
      (fun acc c =>
        acc.bind (fun n => if c.isDigit then some (n * 10 + (c.toNat - 48)) else none))
      (some 0)

/-- `strconv.Atoi`: optional sign followed by decimal digits; any other
input is a syntax error (`none`). -/
def atoiChars : List Char → Option Int
  | '-' :: ds => (atoiDigits ds).map (fun n => -(n : Int))
  | '+' :: ds => (atoiDigits ds).map (fun n => (n : Int))
  | ds => (atoiDigits ds).map (fun n => (n : Int))

/-- `strconv.Atoi(strings.TrimSpace(data))` as used by `GetDaemonPid`: the
parse error is discarded, leaving `pid = 0` on malformed contents. -/
def parsePidText (s : String) : Int :=
  (atoiChars (goTrimSpace s.data)).getD 0

/-- `GetDaemonPid` (lines 172-180): unreadable pid file means 0. -/
def GetDaemonPid (pidFileContents : Option String) : Int :=
  match pidFileContents with
  | none => 0
  | some s => parsePidText s

/-- Operating-system oracle for one `StartDaemon` call.  `alive pid` is
the outcome of the null-signal probe `process.Signal(syscall.Signal(0))`
performed by `isRunning`. -/
structure DaemonEnv where
  pidFileContents : Option String
  alive : Int → Bool
  factoryDaemonEnvVar : String
  logOpen : Option String
  spawn : Except String Int

inductive StartOutcome
  | alreadyRunning (pid : Int)
  | startError (msg : String)
  | started (childPid : Int)
  | ranDaemon
deriving DecidableEq

structure StartResult where
  outcome : StartOutcome
  pidFileAfter : Option String
deriving DecidableEq

/-- `StartDaemon` (lines 36-72).  If the pid file names a live process the
call fails with "daemon already running"; otherwise, outside the daemon
child (`FACTORY_DAEMON != "1"`), it opens the log, spawns the detached
child and overwrites the pid file with the child's pid.  Inside the child
it runs the poll loop (`runDaemon`). -/
def StartDaemon (env : DaemonEnv) : StartResult :=
  let pid := GetDaemonPid env.pidFileContents
  if pid > 0 && env.alive pid then
    ⟨.alreadyRunning pid, env.pidFileContents⟩
  else if env.factoryDaemonEnvVar ≠ "1" then
    match env.logOpen with
    | some e => ⟨.startError e, env.pidFileContents⟩
    | none =>
      match env.spawn with
      | .error e => ⟨.startError e, env.pidFileContents⟩
      | .ok childPid => ⟨.started childPid, some (toString childPid)⟩
  else
    ⟨.ranDaemon, env.pidFileContents⟩

/-! ## Acceptance-criteria extraction (src/internal/jira.go lines 314-320)

`extractAC` applies the Go regexp
`(?i)acceptance\s*criteria[:\s]*([\s\S]*?)(?:\n\n|$)` with
`FindStringSubmatch` (leftmost match only) and returns
`strings.TrimSpace` of the first capture group, or `""` with no match.
RE2's leftmost-first semantics for this pattern: the match starts at the
first position where the case-insensitive marker
(`acceptance`, optional whitespace, `criteria`) matches; the greedy
`[:\s]*` then consumes the maximal run of colons/whitespace (the lazy
capture and the trailing `(?:\n\n|$)` can always complete, so no
backtracking occurs); the lazy capture ends at the first following
`"\n\n"`, or at the end of the text if there is none. -/

/-- RE2's `\s` class: `[\t\n\f\r ]`. -/
def isGoSpace (c : Char) : Bool :=
  c = '\t' || c = '\n' || c = '\x0C' || c = '\r' || c = ' '

/-- The regexp class `[:\s]` used after the marker. -/
def isColonOrSpace (c : Char) : Bool :=
  c = ':' || isGoSpace c

/-- Case-insensitive literal match: on success returns the input after the
pattern. -/
def matchCI : List Char → List Char → Option (List Char)
  | [], rest => some rest
  | _ :: _, [] => none
  | p :: ps, c :: cs => if c.toLower = p.toLower then matchCI ps cs else none

/-- The marker `(?i)acceptance\s*criteria` anchored at the head of the
input; returns the text after the marker. -/
def matchMarker (cs : List Char) : Option (List Char) :=
  match matchCI "acceptance".data cs with
  | none => none
  | some rest => matchCI "criteria".data (rest.dropWhile isGoSpace)

/-- Leftmost occurrence of the marker (`FindStringSubmatch` uses only the
first match). -/
def findMarker : List Char → Option (List Char)
  | [] => none
  | c :: cs =>
    match matchMarker (c :: cs) with
    | some rest => some rest
    | none => findMarker cs

/-- The lazy capture `([\s\S]*?)` bounded by `(?:\n\n|$)`: text up to the
first blank line, or the whole text if none. -/
def takeUntilBlank : List Char → List Char
  | [] => []
  | c :: cs =>
    if c = '\n' && cs.head? == some '\n' then []
    else c :: takeUntilBlank cs

/-- `extractAC` (src/internal/jira.go lines 314-320). -/
def extractAC (desc : String) : String :=
  match findMarker desc.data with
  | none => ""
  | some rest =>
    String.mk (goTrimSpace (takeUntilBlank (rest.dropWhile isColonOrSpace)))

/-! ## Ledger lemmas -/

theorem lookupLedger_nil (k : String) : lookupLedger [] k = none := rfl

theorem lookupLedger_erase_self (m : Ledger) (k : String) :
    lookupLedger (eraseLedger m k) k = none := by
  induction m with
  | nil => rfl
  | cons p rest ih =>
    simp only [eraseLedger, lookupLedger] at ih ⊢
    by_cases h : p.1 = k
    · rw [List.filter_cons_of_neg (by simp [h])]
      exact ih
    · rw [List.filter_cons_of_pos (by simp [h]), List.find?_cons_of_neg _ (by simp [h])]
      exact ih

theorem lookupLedger_erase_ne (m : Ledger) (k k' : String) (h : k' ≠ k) :
    lookupLedger (eraseLedger m k) k' = lookupLedger m k' := by
  induction m with
  | nil => rfl
  | cons p rest ih =>
    simp only [eraseLedger, lookupLedger] at ih ⊢
    by_cases hp : p.1 = k
    · have hp' : ¬ p.1 = k' := by rw [hp]; exact fun hc => h hc.symm
      rw [List.filter_cons_of_neg (by simp [hp]), List.find?_cons_of_neg _ (by simp [hp'])]
      exact ih
    · rw [List.filter_cons_of_pos (by simp [hp])]
      by_cases hq : p.1 = k'
      · rw [List.find?_cons_of_pos _ (by simp [hq]), List.find?_cons_of_pos _ (by simp [hq])]
      · rw [List.find?_cons_of_neg _ (by simp [hq]), List.find?_cons_of_neg _ (by simp [hq])]
        exact ih

theorem lookupLedger_insert_self (m : Ledger) (k : String) (v : ProcessedIssue) :
    lookupLedger (insertLedger m k v) k = some v := by
  simp [insertLedger, lookupLedger, List.find?]

theorem lookupLedger_insert_ne (m : Ledger) (k k' : String) (v : ProcessedIssue)
    (h : k' ≠ k) :
    lookupLedger (insertLedger m k v) k' = lookupLedger m k' := by
  have hk : ¬ k = k' := fun hc => h hc.symm
  have hrw : insertLedger m k v = (k, v) :: eraseLedger m k := rfl
  rw [hrw]
  have step : lookupLedger ((k, v) :: eraseLedger m k) k' = lookupLedger (eraseLedger m k) k' := by
    simp [lookupLedger, List.find?, hk]
  rw [step, lookupLedger_erase_ne m k k' h]

/-! ## Spec-side slug (for the branch-name refinement claim)

`slugSpec` is written from the specification's words — "slug = title
lower-cased, any run of non-alphanumeric characters collapsed to a single
hyphen, leading/trailing hyphens trimmed, truncated to 40 characters" —
as a left-to-right scan that remembers whether it is inside a
non-alphanumeric run, to be compared with the source-derived
`branchSlug`. -/

def slugSpecAux : Bool → List Char → List Char
  | _, [] => []
  | inRun, c :: cs =>
    if isAlnum c then c :: slugSpecAux false cs
    else if inRun then slugSpecAux true cs
    else '-' :: slugSpecAux true cs

def slugSpec (title : String) : String :=
  String.mk ((trimHyphens (slugSpecAux false (title.data.map Char.toLower))).take 40)

theorem slugSpecAux_true (cs : List Char) :
    slugSpecAux true cs = slugSpecAux false (cs.dropWhile (fun d => !isAlnum d)) := by
  induction cs with
  | nil => rfl
  | cons c cs ih =>
    by_cases h : isAlnum c
    · simp [slugSpecAux, List.dropWhile_cons, h]
    · simp only [slugSpecAux, List.dropWhile_cons, h]
      rw [if_neg (by simp)]
      exact ih

theorem collapse_eq_slugSpecAux (cs : List Char) :
    collapseNonAlnum cs = slugSpecAux false cs := by
  have H : ∀ (n : Nat) (l : List Char), l.length ≤ n
      → collapseNonAlnum l = slugSpecAux false l := by
    intro n
    induction n with
    | zero =>
      intro l hl
      rw [List.length_eq_zero.mp (Nat.le_zero.mp hl)]
      rw [collapseNonAlnum]
      rfl
    | succ n ihn =>
      intro l hl
      cases l with
      | nil => rw [collapseNonAlnum]; rfl
      | cons c cs' =>
        rw [collapseNonAlnum]
        by_cases h : isAlnum c
        · rw [if_pos h]
          rw [show slugSpecAux false (c :: cs') = c :: slugSpecAux false cs' from by
            simp [slugSpecAux, h]]
          rw [ihn cs' (by simpa using Nat.le_of_succ_le_succ hl)]
        · rw [if_neg h]
          rw [show slugSpecAux false (c :: cs') = '-' :: slugSpecAux true cs' from by
            simp [slugSpecAux, h]]
          rw [slugSpecAux_true]
          have hlen : (cs'.dropWhile (fun d => !isAlnum d)).length ≤ cs'.length :=
            (List.dropWhile_suffix _).length_le
          have hcs : cs'.length ≤ n := by simpa using Nat.le_of_succ_le_succ hl
          rw [ihn _ (Nat.le_trans hlen hcs)]
  exact H cs.length cs Nat.le.refl

/-! ## Spec-side validation predicates (for the validate-stage claim)

Written from the specification's words: the accepted type set
{bug, task, story, sub-task} and the closed status set
{done, closed, resolved, cancelled}, compared case-insensitively. -/

def specAcceptedType (t : String) : Prop :=
  toLowerStr t ∈ (["bug", "task", "story", "sub-task"] : List String)

def specClosedStatus (s : String) : Prop :=
  toLowerStr s ∈ (["done", "closed", "resolved", "cancelled"] : List String)

theorem isValidType_iff (i : Issue) :
    i.IsValidType = true ↔ specAcceptedType i.itype := by
  simp only [Issue.IsValidType, specAcceptedType, List.mem_cons,
    List.not_mem_nil, or_false, Bool.or_eq_true, decide_eq_true_eq]
  tauto

theorem isClosed_iff (i : Issue) :
    i.IsClosed = true ↔ specClosedStatus i.status := by
  simp only [Issue.IsClosed, specClosedStatus, List.mem_cons,
    List.not_mem_nil, or_false, Bool.or_eq_true, decide_eq_true_eq]
  tauto

/-- Two string concatenations with fixed prefixes that differ at a common
index are never equal, whatever the suffixes. -/
theorem string_append_ne (a b s t : String) (i : Nat)
    (ha : i < a.data.length) (hb : i < b.data.length)
    (hne : a.data.get ⟨i, ha⟩ ≠ b.data.get ⟨i, hb⟩) :
    a ++ s ≠ b ++ t := by
  intro h
  have hd : a.data ++ s.data = b.data ++ t.data := by
    have h2 := congrArg String.data h
    rwa [String.data_append, String.data_append] at h2
  have e1 : (a.data ++ s.data)[i]? = a.data[i]? := by
    rw [List.getElem?_append, if_pos ha]
  have e2 : (b.data ++ t.data)[i]? = b.data[i]? := by
    rw [List.getElem?_append, if_pos hb]
  rw [hd] at e1
  have e3 := e1.symm.trans e2
  rw [List.getElem?_eq_getElem ha, List.getElem?_eq_getElem hb] at e3
  exact hne (by simpa [List.get_eq_getElem] using Option.some.inj e3)

/-- The three C3 conjuncts, in any run whose result is neither of the two
validate rejections while the item is accepted and open. -/
theorem c3_other_branch {P Q : Prop} (hspec : P) (hnclosed : ¬ Q)
    (st er t s : String) (tr : Trace)
    (h1 : ¬ (st = "failed" ∧ er = "validate: invalid type: " ++ t))
    (h2 : ¬ (st = "failed" ∧ er = "validate: issue is closed: " ++ s)) :
    ((st = "failed" ∧ er = "validate: invalid type: " ++ t) ↔ ¬ P)
    ∧ (P → ((st = "failed" ∧ er = "validate: issue is closed: " ++ s) ↔ Q))
    ∧ ((¬ P ∨ Q) → tr = Trace.none0) :=
  ⟨⟨fun hc => (h1 hc).elim, fun hn => (hn hspec).elim⟩,
   fun _ => ⟨fun hc => (h2 hc).elim, fun hq => (hnclosed hq).elim⟩,
   fun hor => (hor.elim (fun hn => hn hspec) hnclosed).elim⟩

/-! ## Pipeline and poller lemmas -/

/-- Every `ProcessIssue` result is terminal: "completed" or "failed". -/
theorem processIssue_terminal (cfg : Config) (env : PipelineEnv) (key : String) :
    (ProcessIssue cfg env key).1.status = "completed"
    ∨ (ProcessIssue cfg env key).1.status = "failed" := by
  obtain ⟨gi, gin, pl, cl, hc, cp, pr⟩ := env
  cases gi with
  | error e => simp [ProcessIssue, fail]
  | ok issue =>
    by_cases hv : issue.IsValidType <;>
      by_cases hcl : issue.IsClosed <;>
        cases gin <;> cases pl <;> cases cl <;> cases hc <;> cases cp <;> cases pr <;>
          simp [ProcessIssue, fail, hv, hcl]

/-- A `processEv k` event of the item loop can only come from an issue of
the processed list. -/
theorem pollItems_processEv_mem (cfg : Config) (env : PollEnv) :
    ∀ (l : List Issue) (m : Ledger) (k : String),
      PollEvent.processEv k ∈ (pollItems cfg env l m).2
      → k ∈ l.map (fun i => i.key) := by
  intro l
  induction l with
  | nil => intro m k h; simp [pollItems] at h
  | cons i rest ih =>
    intro m k h
    simp only [pollItems, List.mem_cons] at h
    rcases h with h | h | h | h
    · have hk : k = i.key := by injection h
      rw [List.map_cons, hk]
      exact List.mem_cons_self _ _
    · exact PollEvent.noConfusion h
    · exact PollEvent.noConfusion h
    · rw [List.map_cons]
      exact List.mem_cons_of_mem _ (ih _ k h)

/-- Each issue of the item loop gets a `process; record; save` block, the
saved (on-disk) map containing its freshly recorded terminal entry. -/
theorem pollItems_block (cfg : Config) (env : PollEnv) :
    ∀ (l : List Issue) (m : Ledger) (k : String),
      k ∈ l.map (fun i => i.key) →
      ∃ entry disk pre post,
        (pollItems cfg env l m).2
          = pre ++ PollEvent.processEv k :: PollEvent.recordEv k entry
              :: PollEvent.saveEv disk :: post
        ∧ lookupLedger disk k = some entry
        ∧ (entry.status = "completed" ∨ entry.status = "failed") := by
  intro l
  induction l with
  | nil => intro m k h; simp at h
  | cons i rest ih =>
    intro m k h
    simp only [List.map_cons, List.mem_cons] at h
    rcases h with hk | hk
    · subst hk
      refine ⟨pollEntry cfg env i,
        insertLedger m i.key (pollEntry cfg env i), [],
        (pollItems cfg env rest (insertLedger m i.key (pollEntry cfg env i))).2,
        ?_, ?_, ?_⟩
      · simp [pollItems]
      · exact lookupLedger_insert_self _ _ _
      · exact processIssue_terminal cfg (env.pipelineEnvOf i.key) i.key
    · obtain ⟨entry, disk, pre, post, hevs, hdisk, hterm⟩ :=
        ih (insertLedger m i.key (pollEntry cfg env i)) k hk
      refine ⟨entry, disk,
        PollEvent.processEv i.key :: PollEvent.recordEv i.key (pollEntry cfg env i)
          :: PollEvent.saveEv (insertLedger m i.key (pollEntry cfg env i)) :: pre,
        post, ?_, hdisk, hterm⟩
      simp [pollItems, hevs]

/-! ## Claim theorems -/

/-- C3: for a fetched item, the run fails at stage "validate" with reason
"invalid type" exactly when the item's type (case-insensitively) is not in
{bug, task, story, sub-task}; for an accepted type it fails at stage
"validate" with a reason mentioning "closed" exactly when the status
(case-insensitively) is in {done, closed, resolved, cancelled}; in either
rejection no workspace, branch, implement or change-request operation
occurs (the trace is empty). -/
theorem processIssue_validate_spec (cfg : Config) (env : PipelineEnv)
    (key : String) (issue : Issue) (hfetch : env.getIssue = .ok issue) :
    (((ProcessIssue cfg env key).1.status = "failed"
        ∧ (ProcessIssue cfg env key).1.error = "validate: invalid type: " ++ issue.itype)
      ↔ ¬ specAcceptedType issue.itype)
    ∧ (specAcceptedType issue.itype →
        (((ProcessIssue cfg env key).1.status = "failed"
          ∧ (ProcessIssue cfg env key).1.error = "validate: issue is closed: " ++ issue.status)
        ↔ specClosedStatus issue.status))
    ∧ ((¬ specAcceptedType issue.itype ∨ specClosedStatus issue.status) →
        (ProcessIssue cfg env key).2 = Trace.none0) := by
  obtain ⟨gi, gin, pl, cl, hc, cp, pr⟩ := env
  simp only at hfetch
  subst hfetch
  by_cases hv : issue.IsValidType
  · have hspec : specAcceptedType issue.itype := (isValidType_iff issue).mp hv
    by_cases hcli : issue.IsClosed
    · have hclspec : specClosedStatus issue.status := (isClosed_iff issue).mp hcli
      simp only [ProcessIssue, hv, hcli, Bool.not_true, Bool.false_eq_true, if_false, if_true]
      refine ⟨⟨fun hcon => ?_, fun hn => (hn hspec).elim⟩,
        fun _ => ⟨fun _ => hclspec, fun _ => ⟨rfl, rfl⟩⟩, fun _ => trivial⟩
      exact (string_append_ne "validate: issue is closed: " "validate: invalid type: "
        issue.status issue.itype 11 (by decide) (by decide) (by decide) hcon.2).elim
    · have hnclspec : ¬ specClosedStatus issue.status :=
        fun hq => hcli ((isClosed_iff issue).mpr hq)
      simp only [ProcessIssue, hv, hcli, Bool.not_true, Bool.false_eq_true, if_false, if_true]
      cases gin with
      | some e =>
        exact c3_other_branch hspec hnclspec _ _ _ _ _
          (fun hcon => string_append_ne "git: " "validate: invalid type: "
            e issue.itype 0 (by decide) (by decide) (by decide) hcon.2)
          (fun hcon => string_append_ne "git: " "validate: issue is closed: "
            e issue.status 0 (by decide) (by decide) (by decide) hcon.2)
      | none =>
        cases pl with
        | some e =>
          exact c3_other_branch hspec hnclspec _ _ _ _ _
            (fun hcon => string_append_ne "branch: " "validate: invalid type: "
              e issue.itype 0 (by decide) (by decide) (by decide) hcon.2)
            (fun hcon => string_append_ne "branch: " "validate: issue is closed: "
              e issue.status 0 (by decide) (by decide) (by decide) hcon.2)
        | none =>
          cases cl with
          | some e =>
            exact c3_other_branch hspec hnclspec _ _ _ _ _
              (fun hcon => string_append_ne "claude: " "validate: invalid type: "
                e issue.itype 0 (by decide) (by decide) (by decide) hcon.2)
              (fun hcon => string_append_ne "claude: " "validate: issue is closed: "
                e issue.status 0 (by decide) (by decide) (by decide) hcon.2)
          | none =>
            cases hc with
            | false =>
              exact c3_other_branch hspec hnclspec _ _ _ _ _
                (fun hcon => by simp at hcon) (fun hcon => by simp at hcon)
            | true =>
              cases cp with
              | some e =>
                exact c3_other_branch hspec hnclspec _ _ _ _ _
                  (fun hcon => string_append_ne "push: " "validate: invalid type: "
                    e issue.itype 0 (by decide) (by decide) (by decide) hcon.2)
                  (fun hcon => string_append_ne "push: " "validate: issue is closed: "
                    e issue.status 0 (by decide) (by decide) (by decide) hcon.2)
              | none =>
                cases pr with
                | error e =>
                  exact c3_other_branch hspec hnclspec _ _ _ _ _
                    (fun hcon => string_append_ne "pr: " "validate: invalid type: "
                      e issue.itype 0 (by decide) (by decide) (by decide) hcon.2)
                    (fun hcon => string_append_ne "pr: " "validate: issue is closed: "
                      e issue.status 0 (by decide) (by decide) (by decide) hcon.2)
                | ok u =>
                  exact c3_other_branch hspec hnclspec _ _ _ _ _
                    (fun hcon => by simp at hcon) (fun hcon => by simp at hcon)
  · have hnspec : ¬ specAcceptedType issue.itype :=
      fun hp => hv ((isValidType_iff issue).mpr hp)
    simp only [ProcessIssue, Bool.not_eq_true] at hv
    simp only [ProcessIssue, hv, Bool.not_false, if_true]
    exact ⟨⟨fun _ => hnspec, fun _ => ⟨rfl, rfl⟩⟩,
      fun hp => (hnspec hp).elim, fun _ => trivial⟩

theorem processIssue_validate_spec_witness :
    (((ProcessIssue ⟨⟨"u", "e", "t", true⟩, ⟨"t", "o", "r"⟩, ⟨"c", "l", "main"⟩, ⟨5, true⟩⟩
        ⟨.ok ⟨"K-3", "T", "D", "Epic", "P", "Open", [], [], ""⟩,
          none, none, none, false, none, .error ""⟩ "K-3").1.status = "failed"
      ∧ (ProcessIssue ⟨⟨"u", "e", "t", true⟩, ⟨"t", "o", "r"⟩, ⟨"c", "l", "main"⟩, ⟨5, true⟩⟩
        ⟨.ok ⟨"K-3", "T", "D", "Epic", "P", "Open", [], [], ""⟩,
          none, none, none, false, none, .error ""⟩ "K-3").1.error
        = "validate: invalid type: " ++ "Epic")
      ↔ ¬ specAcceptedType "Epic") :=
  (processIssue_validate_spec
    ⟨⟨"u", "e", "t", true⟩, ⟨"t", "o", "r"⟩, ⟨"c", "l", "main"⟩, ⟨5, true⟩⟩
    ⟨.ok ⟨"K-3", "T", "D", "Epic", "P", "Open", [], [], ""⟩,
      none, none, none, false, none, .error ""⟩
    "K-3" ⟨"K-3", "T", "D", "Epic", "P", "Open", [], [], ""⟩ rfl).1

/-- C7: the branch name computed by `Git.CreateBranch` is
`feature/<key>-<slug>` with the slug exactly as the specification words
describe it (`slugSpec`): title lower-cased, every run of
non-alphanumeric characters collapsed to one hyphen, leading/trailing
hyphens trimmed, truncated to 40 characters. -/
theorem createBranch_name_spec (env : PipelineEnv) (key title : String)
    (hpull : env.pull = none) :
    CreateBranch env key title = .ok ("feature/" ++ key ++ "-" ++ slugSpec title) := by
  simp [CreateBranch, hpull, branchNameOf, branchSlug, slugSpec, collapse_eq_slugSpecAux]

theorem createBranch_name_spec_witness :
    CreateBranch ⟨.error "", none, none, none, false, none, .error ""⟩
        "PROJ-1" "Add  (Login) Page!!"
      = .ok ("feature/" ++ "PROJ-1" ++ "-" ++ slugSpec "Add  (Login) Page!!")
    ∧ slugSpec "Add  (Login) Page!!" = "add-login-page" :=
  ⟨createBranch_name_spec ⟨.error "", none, none, none, false, none, .error ""⟩
      "PROJ-1" "Add  (Login) Page!!" rfl, rfl⟩

/-- C8 counterexample: when the clone/initialize step (`git.Init`) fails,
`ProcessIssue` records the failing stage as "git", not "branch": the
claim's stage attribution fails on this input. -/
theorem gitInit_failure_stage_cex :
    (ProcessIssue ⟨⟨"u", "e", "t", true⟩, ⟨"t", "o", "r"⟩, ⟨"c", "l", "main"⟩, ⟨5, true⟩⟩
        ⟨.ok ⟨"K-1", "T", "D", "Bug", "P", "Open", [], [], ""⟩,
          some "clone failed", none, none, false, none, .error ""⟩ "K-1").1.status = "failed"
    ∧ (ProcessIssue ⟨⟨"u", "e", "t", true⟩, ⟨"t", "o", "r"⟩, ⟨"c", "l", "main"⟩, ⟨5, true⟩⟩
        ⟨.ok ⟨"K-1", "T", "D", "Bug", "P", "Open", [], [], ""⟩,
          some "clone failed", none, none, false, none, .error ""⟩ "K-1").1.error
      = "git: clone failed"
    ∧ (ProcessIssue ⟨⟨"u", "e", "t", true⟩, ⟨"t", "o", "r"⟩, ⟨"c", "l", "main"⟩, ⟨5, true⟩⟩
        ⟨.ok ⟨"K-1", "T", "D", "Bug", "P", "Open", [], [], ""⟩,
          some "clone failed", none, none, false, none, .error ""⟩ "K-1").1.error
      ≠ "branch: clone failed" :=
  ⟨rfl, rfl, by decide⟩

/-- C8 (amended): a failure of the clone/initialize step (`git.Init`)
returns status "failed" with stage "git"; a failure of the
pull/default-branch-checkout step inside `Git.CreateBranch` returns
status "failed" with stage "branch" (feature-branch checkout/creation
errors are discarded by the source and cannot fail the stage). -/
theorem workspace_failure_stages (cfg : Config) (env : PipelineEnv)
    (key : String) (issue : Issue) (hfetch : env.getIssue = .ok issue)
    (hv : issue.IsValidType = true) (hcl : issue.IsClosed = false) :
    (∀ e, env.gitInit = some e →
      (ProcessIssue cfg env key).1.status = "failed"
      ∧ (ProcessIssue cfg env key).1.error = "git: " ++ e)
    ∧ (env.gitInit = none → ∀ e, env.pull = some e →
      (ProcessIssue cfg env key).1.status = "failed"
      ∧ (ProcessIssue cfg env key).1.error = "branch: " ++ e) := by
  constructor
  · intro e he
    simp [ProcessIssue, hfetch, hv, hcl, he, fail]
  · intro hinit e he
    simp [ProcessIssue, hfetch, hv, hcl, hinit, he, fail]

theorem workspace_failure_stages_witness :
    (ProcessIssue ⟨⟨"u", "e", "t", true⟩, ⟨"t", "o", "r"⟩, ⟨"c", "l", "main"⟩, ⟨5, true⟩⟩
        ⟨.ok ⟨"K-2", "T", "D", "Task", "P", "Open", [], [], ""⟩,
          none, some "pull conflict", none, false, none, .error ""⟩ "K-2").1.status = "failed"
    ∧ (ProcessIssue ⟨⟨"u", "e", "t", true⟩, ⟨"t", "o", "r"⟩, ⟨"c", "l", "main"⟩, ⟨5, true⟩⟩
        ⟨.ok ⟨"K-2", "T", "D", "Task", "P", "Open", [], [], ""⟩,
          none, some "pull conflict", none, false, none, .error ""⟩ "K-2").1.error
      = "branch: " ++ "pull conflict" :=
  (workspace_failure_stages
      ⟨⟨"u", "e", "t", true⟩, ⟨"t", "o", "r"⟩, ⟨"c", "l", "main"⟩, ⟨5, true⟩⟩
      ⟨.ok ⟨"K-2", "T", "D", "Task", "P", "Open", [], [], ""⟩,
        none, some "pull conflict", none, false, none, .error ""⟩
      "K-2" ⟨"K-2", "T", "D", "Task", "P", "Open", [], [], ""⟩
      rfl rfl rfl).2 rfl "pull conflict" rfl

/-- C1: a key present in the `processed` ledger when a tick starts is
never passed to `ProcessIssue` during that tick: `poll` only processes
issues whose key is absent from the ledger. -/
theorem poll_skips_ledgered (cfg : Config) (env : PollEnv) (m : Ledger)
    (k : String) (v : ProcessedIssue) (h : lookupLedger m k = some v) :
    PollEvent.processEv k ∉ (poll cfg env m).2 := by
  intro hmem
  cases hiss : env.issues with
  | error e => simp [poll, hiss] at hmem
  | ok issues =>
    simp only [poll, hiss] at hmem
    have hk := pollItems_processEv_mem cfg env (pollNewIssues env m) m k hmem
    obtain ⟨i, hi, hkey⟩ := List.mem_map.mp hk
    rw [pollNewIssues, hiss] at hi
    have := (List.mem_filter.mp hi).2
    rw [hkey] at this
    simp [h] at this

theorem poll_skips_ledgered_witness :
    lookupLedger [("K-1", ⟨"t", "completed", "", ""⟩)] "K-1"
      = some ⟨"t", "completed", "", ""⟩
    ∧ PollEvent.processEv "K-1"
      ∉ (poll ⟨⟨"u", "e", "t", true⟩, ⟨"t", "o", "r"⟩, ⟨"c", "l", "main"⟩, ⟨5, true⟩⟩
          ⟨.ok [⟨"K-1", "T", "D", "Bug", "P", "Open", [], [], ""⟩],
            fun _ => ⟨.error "down", none, none, none, false, none, .error ""⟩, "t2"⟩
          [("K-1", ⟨"t", "completed", "", ""⟩)]).2 :=
  ⟨rfl,
    poll_skips_ledgered
      ⟨⟨"u", "e", "t", true⟩, ⟨"t", "o", "r"⟩, ⟨"c", "l", "main"⟩, ⟨5, true⟩⟩
      ⟨.ok [⟨"K-1", "T", "D", "Bug", "P", "Open", [], [], ""⟩],
        fun _ => ⟨.error "down", none, none, none, false, none, .error ""⟩, "t2"⟩
      [("K-1", ⟨"t", "completed", "", ""⟩)] "K-1" ⟨"t", "completed", "", ""⟩ rfl⟩

/-- C2 counterexample: the manual `trigger` entry point (src/main.go lines
42-56) produces a terminal Result but performs no ledger record or save:
the on-disk ledger after the trigger is unchanged (empty here) and does
not contain the processed key. -/
theorem trigger_terminal_not_recorded_cex :
    (triggerCmd ⟨⟨"u", "e", "t", true⟩, ⟨"t", "o", "r"⟩, ⟨"c", "l", "main"⟩, ⟨5, true⟩⟩
        ⟨.error "tracker down", none, none, none, false, none, .error ""⟩
        [] "K-9").1.status = "failed"
    ∧ (triggerCmd ⟨⟨"u", "e", "t", true⟩, ⟨"t", "o", "r"⟩, ⟨"c", "l", "main"⟩, ⟨5, true⟩⟩
        ⟨.error "tracker down", none, none, none, false, none, .error ""⟩
        [] "K-9").2.1 = []
    ∧ lookupLedger (triggerCmd ⟨⟨"u", "e", "t", true⟩, ⟨"t", "o", "r"⟩, ⟨"c", "l", "main"⟩, ⟨5, true⟩⟩
        ⟨.error "tracker down", none, none, none, false, none, .error ""⟩
        [] "K-9").2.1 "K-9" = none :=
  ⟨rfl, rfl, rfl⟩

/-- C2 (amended): within a `poll` tick every processed item's terminal
result is recorded under its key and the full map is saved immediately
after that single item (one `process; record; save` block per item, the
saved map containing the item's record); the manual `trigger` entry
point, by contrast, records nothing: it returns the on-disk ledger
unchanged. -/
theorem poll_records_each_item (cfg : Config) (env : PollEnv) (m : Ledger)
    (k : String) (hk : k ∈ (pollNewIssues env m).map (fun i => i.key)) :
    (∃ entry disk pre post,
      (poll cfg env m).2
        = pre ++ PollEvent.processEv k :: PollEvent.recordEv k entry
            :: PollEvent.saveEv disk :: post
      ∧ lookupLedger disk k = some entry
      ∧ (entry.status = "completed" ∨ entry.status = "failed"))
    ∧ (∀ (penv : PipelineEnv) (disk0 : Ledger) (key : String),
        (triggerCmd cfg penv disk0 key).2.1 = disk0) := by
  refine ⟨?_, fun _ _ _ => rfl⟩
  cases hiss : env.issues with
  | error e => rw [pollNewIssues, hiss] at hk; simp at hk
  | ok issues =>
    have hpoll : (poll cfg env m).2 = (pollItems cfg env (pollNewIssues env m) m).2 := by
      simp [poll, hiss]
    rw [hpoll]
    exact pollItems_block cfg env (pollNewIssues env m) m k hk

theorem poll_records_each_item_witness :
    "K-2" ∈ (pollNewIssues
        ⟨.ok [⟨"K-2", "T", "D", "Task", "P", "Open", [], [], ""⟩],
          fun _ => ⟨.error "down", none, none, none, false, none, .error ""⟩, "t2"⟩
        []).map (fun i => i.key)
    ∧ ((∃ entry disk pre post,
        (poll ⟨⟨"u", "e", "t", true⟩, ⟨"t", "o", "r"⟩, ⟨"c", "l", "main"⟩, ⟨5, true⟩⟩
            ⟨.ok [⟨"K-2", "T", "D", "Task", "P", "Open", [], [], ""⟩],
              fun _ => ⟨.error "down", none, none, none, false, none, .error ""⟩, "t2"⟩
            []).2
          = pre ++ PollEvent.processEv "K-2" :: PollEvent.recordEv "K-2" entry
              :: PollEvent.saveEv disk :: post
        ∧ lookupLedger disk "K-2" = some entry
        ∧ (entry.status = "completed" ∨ entry.status = "failed"))
      ∧ (∀ (penv : PipelineEnv) (disk0 : Ledger) (key : String),
          (triggerCmd ⟨⟨"u", "e", "t", true⟩, ⟨"t", "o", "r"⟩, ⟨"c", "l", "main"⟩, ⟨5, true⟩⟩
            penv disk0 key).2.1 = disk0)) :=
  ⟨by simp [pollNewIssues, lookupLedger],
    poll_records_each_item
      ⟨⟨"u", "e", "t", true⟩, ⟨"t", "o", "r"⟩, ⟨"c", "l", "main"⟩, ⟨5, true⟩⟩
      ⟨.ok [⟨"K-2", "T", "D", "Task", "P", "Open", [], [], ""⟩],
        fun _ => ⟨.error "down", none, none, none, false, none, .error ""⟩, "t2"⟩
      [] "K-2" (by simp [pollNewIssues, lookupLedger])⟩

/-- C5: `StartDaemon` fails with the "already running" error exactly when
the pid file names a process that the null-signal probe reports alive;
with a stale pid file (dead process) it does not fail for that reason: in
the parent launcher it spawns the detached child and overwrites the pid
file with the new child's pid. -/
theorem startDaemon_pidfile_liveness (env : DaemonEnv) (p c : Int)
    (hp : GetDaemonPid env.pidFileContents = p) (hpos : p > 0) :
    (env.alive p = true → (StartDaemon env).outcome = .alreadyRunning p)
    ∧ (env.alive p = false → env.factoryDaemonEnvVar ≠ "1" →
        env.logOpen = none → env.spawn = .ok c →
        (StartDaemon env).outcome = .started c
        ∧ (StartDaemon env).pidFileAfter = some (toString c)) := by
  constructor
  · intro halive
    simp [StartDaemon, hp, hpos, halive]
  · intro halive henv hlog hspawn
    simp [StartDaemon, hp, hpos, halive, henv, hlog, hspawn]

theorem startDaemon_pidfile_liveness_witness :
    ((StartDaemon ⟨some "42", fun _ => true, "", none, .ok 99⟩).outcome
        = .alreadyRunning 42)
    ∧ ((StartDaemon ⟨some "42", fun _ => false, "", none, .ok 99⟩).outcome
        = .started 99
      ∧ (StartDaemon ⟨some "42", fun _ => false, "", none, .ok 99⟩).pidFileAfter
        = some (toString (99 : Int))) :=
  ⟨(startDaemon_pidfile_liveness ⟨some "42", fun _ => true, "", none, .ok 99⟩
      42 99 rfl (by decide)).1 rfl,
   (startDaemon_pidfile_liveness ⟨some "42", fun _ => false, "", none, .ok 99⟩
      42 99 rfl (by decide)).2 rfl (by decide) rfl rfl⟩

/-- C6: `Clear("")` empties the ledger and the persisted (returned) map is
empty; `Clear(key)` for a nonempty key removes exactly that key and keeps
every other entry; triggering a key after a clear runs the full pipeline
on it (the trigger entry point invokes `ProcessIssue` unconditionally). -/
theorem clearProcessed_spec (disk : Ledger) (key k : String)
    (cfg : Config) (penv : PipelineEnv) :
    (ClearProcessed disk "" = [])
    ∧ (lookupLedger (ClearProcessed disk "") k = none)
    ∧ (key ≠ "" → lookupLedger (ClearProcessed disk key) key = none)
    ∧ (key ≠ "" → k ≠ key →
        lookupLedger (ClearProcessed disk key) k = lookupLedger disk k)
    ∧ ((triggerCmd cfg penv (ClearProcessed disk key) key).1
        = (ProcessIssue cfg penv key).1) := by
  refine ⟨rfl, rfl, ?_, ?_, rfl⟩
  · intro hk
    simp only [ClearProcessed, if_neg hk]
    exact lookupLedger_erase_self disk key
  · intro hk hkk
    simp only [ClearProcessed, if_neg hk]
    exact lookupLedger_erase_ne disk key k hkk

theorem clearProcessed_spec_witness :
    (lookupLedger (ClearProcessed [("A", ⟨"t", "completed", "", ""⟩)] "A") "A" = none)
    ∧ (lookupLedger (ClearProcessed
        [("A", ⟨"t", "completed", "", ""⟩), ("B", ⟨"t", "failed", "", "e"⟩)] "A") "B"
      = lookupLedger
        [("A", ⟨"t", "completed", "", ""⟩), ("B", ⟨"t", "failed", "", "e"⟩)] "B") :=
  ⟨(clearProcessed_spec [("A", ⟨"t", "completed", "", ""⟩)] "A" "A"
      ⟨⟨"", "", "", true⟩, ⟨"", "", ""⟩, ⟨"", "", ""⟩, ⟨1, true⟩⟩
      ⟨.error "", none, none, none, false, none, .error ""⟩).2.2.1 (by decide),
   (clearProcessed_spec
      [("A", ⟨"t", "completed", "", ""⟩), ("B", ⟨"t", "failed", "", "e"⟩)] "A" "B"
      ⟨⟨"", "", "", true⟩, ⟨"", "", ""⟩, ⟨"", "", ""⟩, ⟨1, true⟩⟩
      ⟨.error "", none, none, none, false, none, .error ""⟩).2.2.2.1
      (by decide) (by decide)⟩

/-- C4: a run that reaches the Implement stage and then sees no
uncommitted changes returns status "completed" with an empty PR url, and
performs no commit/push, change-request, tracker-comment or transition
call. -/
theorem processIssue_no_changes_completed (cfg : Config) (env : PipelineEnv)
    (key : String) (issue : Issue)
    (hfetch : env.getIssue = .ok issue)
    (hv : issue.IsValidType = true) (hcl : issue.IsClosed = false)
    (hinit : env.gitInit = none) (hpull : env.pull = none)
    (hclaude : env.claude = none) (hch : env.hasChanges = false) :
    (ProcessIssue cfg env key).1.status = "completed"
    ∧ (ProcessIssue cfg env key).1.prUrl = ""
    ∧ (ProcessIssue cfg env key).2.commitPushCalled = false
    ∧ (ProcessIssue cfg env key).2.createPRCalled = false
    ∧ (ProcessIssue cfg env key).2.addCommentCalled = false
    ∧ (ProcessIssue cfg env key).2.transitionCalled = false := by
  simp [ProcessIssue, hfetch, hv, hcl, hinit, hpull, hclaude, hch, Trace.none0]

theorem processIssue_no_changes_completed_witness :
    (ProcessIssue ⟨⟨"u", "e", "t", true⟩, ⟨"t", "o", "r"⟩, ⟨"c", "l", "main"⟩, ⟨5, true⟩⟩
        ⟨.ok ⟨"K-1", "T", "D", "Bug", "P", "Open", [], [], ""⟩,
          none, none, none, false, none, .ok "u"⟩ "K-1").1.status = "completed"
    ∧ (ProcessIssue ⟨⟨"u", "e", "t", true⟩, ⟨"t", "o", "r"⟩, ⟨"c", "l", "main"⟩, ⟨5, true⟩⟩
        ⟨.ok ⟨"K-1", "T", "D", "Bug", "P", "Open", [], [], ""⟩,
          none, none, none, false, none, .ok "u"⟩ "K-1").1.prUrl = "" :=
  ⟨(processIssue_no_changes_completed _ _ "K-1" ⟨"K-1", "T", "D", "Bug", "P", "Open", [], [], ""⟩
      rfl rfl rfl rfl rfl rfl rfl).1,
   (processIssue_no_changes_completed _ _ "K-1" ⟨"K-1", "T", "D", "Bug", "P", "Open", [], [], ""⟩
      rfl rfl rfl rfl rfl rfl rfl).2.1⟩

/-- C10: a `ProcessIssue` result with a nonempty PR url is "completed";
equivalently every "failed" result has an empty PR url (the url field is
assigned only after `CreatePR` succeeds, and nothing after that assignment
fails the run). -/
theorem prUrl_nonempty_implies_completed (cfg : Config) (env : PipelineEnv)
    (key : String) :
    ((ProcessIssue cfg env key).1.prUrl ≠ "" →
      (ProcessIssue cfg env key).1.status = "completed")
    ∧ ((ProcessIssue cfg env key).1.status = "failed" →
      (ProcessIssue cfg env key).1.prUrl = "") := by
  obtain ⟨gi, gin, pl, cl, hc, cp, pr⟩ := env
  cases gi with
  | error e => simp [ProcessIssue, fail]
  | ok issue =>
    by_cases hv : issue.IsValidType <;>
      by_cases hcl : issue.IsClosed <;>
        cases gin <;> cases pl <;> cases cl <;> cases hc <;> cases cp <;> cases pr <;>
          simp [ProcessIssue, fail, hv, hcl]

theorem prUrl_nonempty_implies_completed_witness :
    (ProcessIssue ⟨⟨"u", "e", "t", true⟩, ⟨"t", "o", "r"⟩, ⟨"c", "l", "main"⟩, ⟨5, true⟩⟩
        ⟨.ok ⟨"K-1", "T", "D", "Bug", "P", "Open", [], [], ""⟩,
          none, none, none, true, some "no upstream", .ok "http://pr/1"⟩ "K-1").1.prUrl = "" :=
  (prUrl_nonempty_implies_completed
      ⟨⟨"u", "e", "t", true⟩, ⟨"t", "o", "r"⟩, ⟨"c", "l", "main"⟩, ⟨5, true⟩⟩
      ⟨.ok ⟨"K-1", "T", "D", "Bug", "P", "Open", [], [], ""⟩,
        none, none, none, true, some "no upstream", .ok "http://pr/1"⟩ "K-1").2 rfl

/-! ## extractAC lemmas and claim -/

theorem extractAC_eq_of_findMarker (desc : String) (rest : List Char)
    (h : findMarker desc.data = some rest) :
    extractAC desc
      = String.mk (goTrimSpace (takeUntilBlank (rest.dropWhile isColonOrSpace))) := by
  unfold extractAC
  rw [h]

/-! Spec-side notions for the extraction claim, written from the
specification's words: a case-insensitive occurrence of the literal
marker phrase ("acceptance", optional whitespace, "criteria"), and a
blank line (two consecutive newlines). -/

/-- `xs` matches the pattern `pat` case-insensitively. -/
def ciEq (pat xs : List Char) : Prop :=
  xs.map Char.toLower = pat.map Char.toLower

instance (pat xs : List Char) : Decidable (ciEq pat xs) :=
  inferInstanceAs (Decidable (xs.map Char.toLower = pat.map Char.toLower))

/-- A marker occurrence: "acceptance" (case-insensitive), a whitespace
run, "criteria" (case-insensitive). -/
def SpecMarkerShape (m1 ws m2 : List Char) : Prop :=
  ciEq ("acceptance".data) m1
  ∧ (∀ c ∈ ws, isGoSpace c = true)
  ∧ ciEq ("criteria".data) m2

/-- The description contains a marker occurrence somewhere. -/
def SpecContainsMarker (desc : String) : Prop :=
  ∃ pre m1 ws m2 rest,
    desc.data = pre ++ (m1 ++ (ws ++ (m2 ++ rest))) ∧ SpecMarkerShape m1 ws m2

/-- Does the text contain a blank line (two consecutive newlines)? -/
def hasDoubleNewline : List Char → Bool
  | [] => false
  | c :: cs => (c = '\n' && cs.head? == some '\n') || hasDoubleNewline cs

theorem matchCI_complete (pat : List Char) :
    ∀ (xs tail : List Char), ciEq pat xs → matchCI pat (xs ++ tail) = some tail := by
  induction pat with
  | nil =>
    intro xs tail h
    cases xs with
    | nil => rfl
    | cons c cs => simp [ciEq] at h
  | cons p ps ih =>
    intro xs tail h
    cases xs with
    | nil => simp [ciEq] at h
    | cons c cs =>
      simp only [ciEq, List.map_cons, List.cons.injEq] at h
      rw [List.cons_append, matchCI, if_pos h.1]
      exact ih cs tail h.2

theorem matchCI_sound (pat : List Char) :
    ∀ (cs rest : List Char), matchCI pat cs = some rest →
      ∃ xs, cs = xs ++ rest ∧ ciEq pat xs := by
  induction pat with
  | nil =>
    intro cs rest h
    simp only [matchCI, Option.some.injEq] at h
    exact ⟨[], by rw [List.nil_append, h], by simp [ciEq]⟩
  | cons p ps ih =>
    intro cs rest h
    cases cs with
    | nil => simp [matchCI] at h
    | cons c cs' =>
      rw [matchCI] at h
      by_cases hcl : c.toLower = p.toLower
      · rw [if_pos hcl] at h
        obtain ⟨xs', heq, hci⟩ := ih cs' rest h
        refine ⟨c :: xs', by rw [List.cons_append, heq], ?_⟩
        simp only [ciEq, List.map_cons]
        rw [hcl, hci]
      · rw [if_neg hcl] at h
        exact absurd h (by simp)

theorem dropWhile_append_all (p : Char → Bool) (xs ys : List Char)
    (h : ∀ c ∈ xs, p c = true) :
    (xs ++ ys).dropWhile p = ys.dropWhile p := by
  induction xs with
  | nil => rw [List.nil_append]
  | cons c cs ih =>
    rw [List.cons_append, List.dropWhile_cons, if_pos (h c (List.mem_cons_self _ _))]
    exact ih (fun d hd => h d (List.mem_cons_of_mem _ hd))

theorem head_not_space_of_ciEq_criteria (m2 : List Char)
    (h : ciEq ("criteria".data) m2) :
    ∃ c m2', m2 = c :: m2' ∧ isGoSpace c = false := by
  cases m2 with
  | nil => exact absurd h (by decide)
  | cons c m2' =>
    refine ⟨c, m2', rfl, ?_⟩
    have hh := congrArg List.head? h
    simp only [List.map_cons, List.head?_cons] at hh
    have hc : c.toLower = 'c' := Option.some.inj hh
    cases hsp : isGoSpace c with
    | false => rfl
    | true =>
      exfalso
      have h5 : c = '\t' ∨ c = '\n' ∨ c = '\x0C' ∨ c = '\r' ∨ c = ' ' := by
        simpa [isGoSpace, or_assoc] using hsp
      rcases h5 with h' | h' | h' | h' | h' <;> rw [h'] at hc <;> exact absurd hc (by decide)

theorem matchMarker_complete (m1 ws m2 tail : List Char)
    (h : SpecMarkerShape m1 ws m2) :
    matchMarker (m1 ++ (ws ++ (m2 ++ tail))) = some tail := by
  obtain ⟨h1, hws, h2⟩ := h
  unfold matchMarker
  rw [matchCI_complete ("acceptance".data) m1 (ws ++ (m2 ++ tail)) h1]
  show matchCI ("criteria".data) ((ws ++ (m2 ++ tail)).dropWhile isGoSpace) = some tail
  rw [dropWhile_append_all isGoSpace ws (m2 ++ tail) hws]
  obtain ⟨c, m2', hm2, hsp⟩ := head_not_space_of_ciEq_criteria m2 h2
  rw [hm2, List.cons_append, List.dropWhile_cons, if_neg (by simp [hsp]),
    ← List.cons_append, ← hm2]
  exact matchCI_complete ("criteria".data) m2 tail h2

theorem matchMarker_sound (cs rest : List Char) (h : matchMarker cs = some rest) :
    ∃ m1 ws m2, cs = m1 ++ (ws ++ (m2 ++ rest)) ∧ SpecMarkerShape m1 ws m2 := by
  unfold matchMarker at h
  cases h1 : matchCI ("acceptance".data) cs with
  | none => rw [h1] at h; exact absurd h (by simp)
  | some r1 =>
    rw [h1] at h
    obtain ⟨m1, hcs, hci1⟩ := matchCI_sound ("acceptance".data) cs r1 h1
    obtain ⟨m2, hr2, hci2⟩ := matchCI_sound ("criteria".data) (r1.dropWhile isGoSpace) rest h
    refine ⟨m1, r1.takeWhile isGoSpace, m2, ?_, hci1, ?_, hci2⟩
    · rw [hcs]
      refine congrArg (fun l => m1 ++ l) ?_
      rw [← hr2, List.takeWhile_append_dropWhile]
    · intro c hc
      exact List.mem_takeWhile_imp hc

theorem findMarker_sound (cs rest : List Char) (h : findMarker cs = some rest) :
    ∃ pre m1 ws m2, cs = pre ++ (m1 ++ (ws ++ (m2 ++ rest)))
      ∧ SpecMarkerShape m1 ws m2 := by
  induction cs with
  | nil => simp [findMarker] at h
  | cons c cs' ih =>
    rw [findMarker] at h
    cases hm : matchMarker (c :: cs') with
    | some r =>
      rw [hm] at h
      have hr : r = rest := Option.some.inj h
      subst hr
      obtain ⟨m1, ws, m2, heq, hsh⟩ := matchMarker_sound (c :: cs') r hm
      exact ⟨[], m1, ws, m2, by rw [List.nil_append, ← heq], hsh⟩
    | none =>
      rw [hm] at h
      obtain ⟨pre, m1, ws, m2, heq, hsh⟩ := ih h
      exact ⟨c :: pre, m1, ws, m2, by rw [List.cons_append, ← heq], hsh⟩

/-- Any description containing a marker occurrence is found by the
search: the model never misses an occurrence. -/
theorem specContains_findMarker (desc : String) (h : SpecContainsMarker desc) :
    findMarker desc.data ≠ none := by
  obtain ⟨pre, m1, ws, m2, rest, heq, hsh⟩ := h
  rw [heq]
  clear heq
  induction pre with
  | nil =>
    obtain ⟨c, m1', hm1⟩ : ∃ c m1', m1 = c :: m1' := by
      cases m1 with
      | nil => exact absurd hsh.1 (by decide)
      | cons c m1' => exact ⟨c, m1', rfl⟩
    subst hm1
    simp only [List.nil_append, List.cons_append]
    rw [findMarker]
    rw [show matchMarker (c :: (m1' ++ (ws ++ (m2 ++ rest)))) = some rest from
      matchMarker_complete (c :: m1') ws m2 rest hsh]
    simp
  | cons c pre' ih =>
    simp only [List.cons_append]
    rw [findMarker]
    cases hm : matchMarker (c :: (pre' ++ (m1 ++ (ws ++ (m2 ++ rest))))) with
    | some r => simp
    | none => exact ih

/-- The search finds the occurrence at position `A.length` when no
occurrence starts earlier: leftmost-match. -/
theorem findMarker_append (A m1 ws m2 X : List Char)
    (hsh : SpecMarkerShape m1 ws m2)
    (hfirst : ∀ pre n1 nws n2 nrest,
      A ++ (m1 ++ (ws ++ (m2 ++ X))) = pre ++ (n1 ++ (nws ++ (n2 ++ nrest))) →
      SpecMarkerShape n1 nws n2 → A.length ≤ pre.length) :
    findMarker (A ++ (m1 ++ (ws ++ (m2 ++ X)))) = some X := by
  induction A with
  | nil =>
    obtain ⟨c, m1', hm1⟩ : ∃ c m1', m1 = c :: m1' := by
      cases m1 with
      | nil => exact absurd hsh.1 (by decide)
      | cons c m1' => exact ⟨c, m1', rfl⟩
    subst hm1
    simp only [List.nil_append, List.cons_append]
    rw [findMarker]
    rw [show matchMarker (c :: (m1' ++ (ws ++ (m2 ++ X)))) = some X from
      matchMarker_complete (c :: m1') ws m2 X hsh]
  | cons a A' ih =>
    simp only [List.cons_append]
    rw [findMarker]
    cases hm : matchMarker (a :: (A' ++ (m1 ++ (ws ++ (m2 ++ X))))) with
    | some r =>
      exfalso
      obtain ⟨n1, nws, n2, heqq, hshn⟩ := matchMarker_sound _ _ hm
      have hle := hfirst [] n1 nws n2 r
        (by rw [List.nil_append, List.cons_append, ← heqq]) hshn
      simp at hle
    | none =>
      show findMarker (A' ++ (m1 ++ (ws ++ (m2 ++ X)))) = some X
      apply ih
      intro pre n1 nws n2 nrest heqq hshn
      have hle := hfirst (a :: pre) n1 nws n2 nrest
        (by rw [List.cons_append, List.cons_append, heqq]) hshn
      simp only [List.length_cons] at hle
      omega

/-- The lazy capture stops exactly at the first following blank line:
`cs ++ ['\n']` having no double newline says the terminating blank line
is the first one after the capture start. -/
theorem takeUntilBlank_append_blank (cs tail : List Char)
    (hno : hasDoubleNewline (cs ++ ['\n']) = false) :
    takeUntilBlank (cs ++ '\n' :: '\n' :: tail) = cs := by
  induction cs with
  | nil => rw [List.nil_append, takeUntilBlank, if_pos (by rw [List.head?_cons]; decide)]
  | cons c cs' ih =>
    rw [List.cons_append] at hno
    rw [hasDoubleNewline] at hno
    have hno1 : (c = '\n' && (cs' ++ ['\n']).head? == some '\n') = false :=
      (Bool.or_eq_false_iff.mp hno).1
    have hno2 : hasDoubleNewline (cs' ++ ['\n']) = false :=
      (Bool.or_eq_false_iff.mp hno).2
    have hcond : (c = '\n' && ((cs' ++ '\n' :: '\n' :: tail).head? == some '\n')) = false := by
      by_cases hc : c = '\n'
      · cases hcs' : cs' with
        | nil =>
          exfalso
          rw [hcs', hc] at hno1
          simp at hno1
        | cons d cs'' =>
          have hd : ¬ (d = '\n') := by
            intro hdv
            rw [hc, hcs', hdv] at hno1
            simp at hno1
          simp [hd]
      · simp [hc]
    rw [List.cons_append, takeUntilBlank, if_neg (by rw [hcond]; decide), ih hno2]

/-- Computable check that no marker occurrence starts at any of the
first `k` positions; it lets a concrete prefix discharge the
leftmost-occurrence hypothesis by evaluation. -/
def markerFreePrefix : Nat → List Char → Bool
  | 0, _ => true
  | _ + 1, [] => true
  | k + 1, c :: cs => (matchMarker (c :: cs)).isNone && markerFreePrefix k cs

theorem markerFreePrefix_isNone (k : Nat) :
    ∀ (l : List Char), markerFreePrefix k l = true →
      ∀ i, i < k → (matchMarker (l.drop i)).isNone = true := by
  induction k with
  | zero => intro l _ i hi; omega
  | succ k ih =>
    intro l hk i hi
    cases l with
    | nil =>
      rw [List.drop_nil]
      rfl
    | cons c cs =>
      rw [markerFreePrefix] at hk
      have h1 := (Bool.and_eq_true_iff.mp hk).1
      have h2 := (Bool.and_eq_true_iff.mp hk).2
      cases i with
      | zero => rw [List.drop_zero]; exact h1
      | succ j =>
        rw [List.drop_succ_cons]
        exact ih cs h2 j (by omega)

theorem markerFreePrefix_first (k : Nat) (l : List Char)
    (hk : markerFreePrefix k l = true) :
    ∀ pre n1 nws n2 nrest, l = pre ++ (n1 ++ (nws ++ (n2 ++ nrest))) →
      SpecMarkerShape n1 nws n2 → k ≤ pre.length := by
  intro pre n1 nws n2 nrest heq hsh
  by_contra hlt
  have hi : pre.length < k := by omega
  have hnone := markerFreePrefix_isNone k l hk pre.length hi
  have hdrop : l.drop pre.length = n1 ++ (nws ++ (n2 ++ nrest)) := by
    rw [heq, List.drop_left]
  rw [hdrop, matchMarker_complete n1 nws n2 nrest hsh] at hnone
  simp at hnone

/-- With no blank line at all, the lazy capture runs to the end of the
text. -/
theorem takeUntilBlank_eq_self (cs : List Char)
    (hno : hasDoubleNewline cs = false) :
    takeUntilBlank cs = cs := by
  induction cs with
  | nil => rfl
  | cons c cs' ih =>
    rw [hasDoubleNewline] at hno
    have hno1 : (c = '\n' && cs'.head? == some '\n') = false :=
      (Bool.or_eq_false_iff.mp hno).1
    have hno2 : hasDoubleNewline cs' = false :=
      (Bool.or_eq_false_iff.mp hno).2
    rw [takeUntilBlank, if_neg (by simp [hno1]), ih hno2]

/-- C9: `extractAC` is a pure function of the description.  It returns
"" whenever no case-insensitive marker occurrence ("acceptance",
optional whitespace, "criteria") is present anywhere in the text.  When
the leftmost marker occurrence `M` (any casing) sits after an arbitrary
prefix `A` containing no earlier occurrence, and is followed by the
colon/whitespace run `S` the regexp consumes greedily (in particular `S`
may hold a blank line directly after the marker), the captured text is
the following block `B`, which may span several lines, up to the first
blank line after the capture start — independent of everything beyond
that blank line, so only the first match is used — or up to the end of
the text when no blank line follows; the capture is returned trimmed. -/
theorem extractAC_spec :
    (∀ desc : String, ¬ SpecContainsMarker desc → extractAC desc = "")
    ∧ (∀ (A M S B C : String) (m1 ws m2 : List Char) (b : Char) (bs : List Char),
        M.data = m1 ++ ws ++ m2 → SpecMarkerShape m1 ws m2 →
        (∀ pre n1 nws n2 nrest,
          (A ++ M ++ S ++ B ++ "\n\n" ++ C).data = pre ++ (n1 ++ (nws ++ (n2 ++ nrest))) →
          SpecMarkerShape n1 nws n2 → A.data.length ≤ pre.length) →
        (∀ c ∈ S.data, isColonOrSpace c = true) →
        B.data = b :: bs → isColonOrSpace b = false →
        hasDoubleNewline (B.data ++ ['\n']) = false →
        extractAC (A ++ M ++ S ++ B ++ "\n\n" ++ C) = String.mk (goTrimSpace B.data))
    ∧ (∀ (A M S B : String) (m1 ws m2 : List Char) (b : Char) (bs : List Char),
        M.data = m1 ++ ws ++ m2 → SpecMarkerShape m1 ws m2 →
        (∀ pre n1 nws n2 nrest,
          (A ++ M ++ S ++ B).data = pre ++ (n1 ++ (nws ++ (n2 ++ nrest))) →
          SpecMarkerShape n1 nws n2 → A.data.length ≤ pre.length) →
        (∀ c ∈ S.data, isColonOrSpace c = true) →
        B.data = b :: bs → isColonOrSpace b = false →
        hasDoubleNewline B.data = false →
        extractAC (A ++ M ++ S ++ B) = String.mk (goTrimSpace B.data)) := by
  refine ⟨?_, ?_, ?_⟩
  · intro desc h
    cases hfm : findMarker desc.data with
    | none =>
      unfold extractAC
      rw [hfm]
    | some rest =>
      obtain ⟨pre, m1, ws, m2, heq, hsh⟩ := findMarker_sound desc.data rest hfm
      exact absurd ⟨pre, m1, ws, m2, rest, heq, hsh⟩ h
  · intro A M S B C m1 ws m2 b bs hM hsh hfirst hS hB hb hno
    have hdata : (A ++ M ++ S ++ B ++ "\n\n" ++ C).data
        = A.data ++ (m1 ++ (ws ++ (m2
            ++ (S.data ++ (B.data ++ ('\n' :: '\n' :: C.data)))))) := by
      simp [String.data_append, hM, List.append_assoc,
        show ("\n\n" : String).data = ['\n', '\n'] from rfl]
    have hfind : findMarker (A ++ M ++ S ++ B ++ "\n\n" ++ C).data
        = some (S.data ++ (B.data ++ ('\n' :: '\n' :: C.data))) := by
      rw [hdata]
      apply findMarker_append A.data m1 ws m2 _ hsh
      intro pre n1 nws n2 nrest heq hshn
      exact hfirst pre n1 nws n2 nrest (hdata.trans heq) hshn
    rw [extractAC_eq_of_findMarker _ _ hfind]
    rw [dropWhile_append_all isColonOrSpace S.data _ hS]
    rw [hB, List.cons_append, List.dropWhile_cons, if_neg (by simp [hb]),
      ← List.cons_append, ← hB]
    rw [takeUntilBlank_append_blank B.data C.data hno]
  · intro A M S B m1 ws m2 b bs hM hsh hfirst hS hB hb hno
    have hdata : (A ++ M ++ S ++ B).data
        = A.data ++ (m1 ++ (ws ++ (m2 ++ (S.data ++ (B.data ++ ([] : List Char)))))) := by
      simp [String.data_append, hM, List.append_assoc]
    have hfind : findMarker (A ++ M ++ S ++ B).data
        = some (S.data ++ (B.data ++ ([] : List Char))) := by
      rw [hdata]
      apply findMarker_append A.data m1 ws m2 _ hsh
      intro pre n1 nws n2 nrest heq hshn
      exact hfirst pre n1 nws n2 nrest (hdata.trans heq) hshn
    rw [extractAC_eq_of_findMarker _ _ hfind]
    rw [dropWhile_append_all isColonOrSpace S.data _ hS]
    rw [List.append_nil]
    rw [hB, List.dropWhile_cons, if_neg (by simp [hb])]
    rw [takeUntilBlank_eq_self (b :: bs) (by rw [← hB]; exact hno)]

theorem extractAC_spec_witness :
    extractAC ("Intro.\n\n" ++ "ACCEPTANCE Criteria" ++ ":\n\n"
        ++ "line one\nline two" ++ "\n\n" ++ "acceptance criteria: again\n\nx")
      = String.mk (goTrimSpace ("line one\nline two" : String).data)
    ∧ String.mk (goTrimSpace ("line one\nline two" : String).data) = "line one\nline two"
    ∧ extractAC ("" ++ "Acceptance criteria" ++ ": " ++ "till the end, no blank line")
      = String.mk (goTrimSpace ("till the end, no blank line" : String).data)
    ∧ extractAC "plain text, nothing to see" = "" := by
  refine ⟨?_, rfl, ?_, ?_⟩
  · exact extractAC_spec.2.1 "Intro.\n\n" "ACCEPTANCE Criteria" ":\n\n" "line one\nline two"
      "acceptance criteria: again\n\nx"
      ("ACCEPTANCE" : String).data ([' ']) ("Criteria" : String).data
      'l' ("ine one\nline two" : String).data
      rfl ⟨by decide, by decide, by decide⟩
      (markerFreePrefix_first ("Intro.\n\n" : String).data.length
        ("Intro.\n\n" ++ "ACCEPTANCE Criteria" ++ ":\n\n" ++ "line one\nline two"
          ++ "\n\n" ++ "acceptance criteria: again\n\nx").data (by decide))
      (by decide) rfl rfl (by decide)
  · exact extractAC_spec.2.2 "" "Acceptance criteria" ": " "till the end, no blank line"
      ("Acceptance" : String).data ([' ']) ("criteria" : String).data
      't' ("ill the end, no blank line" : String).data
      rfl ⟨by decide, by decide, by decide⟩
      (fun _ _ _ _ _ _ _ => Nat.zero_le _)
      (by decide) rfl rfl (by decide)
  · exact extractAC_spec.1 "plain text, nothing to see"
      (fun hc => (specContains_findMarker _ hc) rfl)

end Factory
